import Mathlib

/-!
Verification of the scribbles path-generation core (`scribbles/core.py`,
`scribbles/points.py`).

The Python code works with floating-point numbers and the math library's
`sqrt`, `cos`, `sin` and `pi`.  We embed it shallowly over an arbitrary
linear ordered field `R` together with a `Geom R` record bundling the four
analytic primitives as plain functions.  Each theorem assumes exactly the
analytic facts about those primitives that it needs (for instance
`∀ x, 0 ≤ sqrt x` and `sqrt 0 = 0`); all of them hold for the real-valued
originals.  Loops that are not structurally terminating in the source
(`while length < max_length:`) are embedded with explicit fuel and return
`none` when the fuel runs out, `some points` when the loop exits as in the
source.  Python exceptions are embedded with `Except`; `total_length`'s
`points[0]` on an empty list raises `IndexError`, so it returns `Option`.
-/

set_option maxHeartbeats 4000000
set_option maxRecDepth 100000

namespace Scribbles

/-- The analytic primitives used by the source: `math.sqrt`, `math.pi`,
`math.cos`, `math.sin`, bundled as explicit data so that the embedding
stays computable. -/
structure Geom (R : Type) where
  sqrt : R → R
  pi : R
  cos : R → R
  sin : R → R

variable {R : Type} [LinearOrderedField R]

/-- `points.distance`: Euclidean distance between two Cartesian points. -/
def distance (G : Geom R) (point_1 point_2 : R × R) : R :=
  G.sqrt ((point_2.1 - point_1.1) ^ 2 + (point_2.2 - point_1.2) ^ 2)

/-- The accumulator loop of `points.total_length`:
`for point_2 in points[1:]: total += distance(point_1, point_2); point_1 = point_2`. -/
def total_length_go (G : Geom R) : R × R → List (R × R) → R → R
  | _, [], total => total
  | point_1, point_2 :: rest, total =>
    total_length_go G point_2 rest (total + distance G point_1 point_2)

/-- `points.total_length`.  The source evaluates `points[0]` before the loop,
which raises `IndexError` on an empty list; hence the `Option`. -/
def total_length (G : Geom R) : List (R × R) → Option R
  | [] => none
  | point_1 :: rest => some (total_length_go G point_1 rest 0)

/-- Sum of Euclidean distances between consecutive points: the specification's
definition of the length of a path (total, 0 on lists of length 0 or 1).
Used to compare against the source's `total_length`. -/
def totalLength (G : Geom R) : List (R × R) → R
  | [] => 0
  | [_] => 0
  | p :: q :: rest => distance G p q + totalLength G (q :: rest)

/-- Integer square root by Newton iteration, with explicit structural fuel so
that the kernel can evaluate it (used only to build concrete witnesses). -/
def isqrtAux (n : ℕ) : ℕ → ℕ → ℕ
  | 0, guess => guess
  | f + 1, guess =>
    if (guess + n / guess) / 2 < guess then isqrtAux n f ((guess + n / guess) / 2)
    else guess

/-- Integer square root (exact on perfect squares). -/
def isqrt (n : ℕ) : ℕ :=
  if n ≤ 1 then n else isqrtAux n n (n / 2)

/-- A computable stand-in for `sqrt` on ℚ: exact on ratios of perfect squares,
nonnegative everywhere.  Only used to instantiate witnesses. -/
def ratSqrt (q : ℚ) : ℚ := (isqrt q.num.toNat : ℚ) / (isqrt q.den : ℚ)

/-- A computable stand-in for `cos` on ℚ (with `pi` taken to be `2`):
piecewise linear, agreeing with the real cosine at the radian values
`0, pi/2, pi, 3*pi/2` that the witnesses sample. -/
def cosQ (x : ℚ) : ℚ := if x ≤ 2 then 1 - x else x - 3

/-- A computable stand-in for `sin` on ℚ (with `pi` taken to be `2`),
agreeing with the real sine at `0, pi/2, pi, 3*pi/2`. -/
def sinQ (x : ℚ) : ℚ := if x ≤ 1 then x else 2 - x

/-- The concrete geometry used by witnesses. -/
def ratGeom : Geom ℚ := ⟨ratSqrt, 2, cosQ, sinQ⟩

/-- `points.PointTransformer`: its only state is the accumulated list of
point-mapping functions `self._fns`, initialised to `[lambda pt: pt]`. -/
structure PointTransformer (R : Type) where
  _fns : List (R × R → R × R)

/-- `PointTransformer.__init__`. -/
def PointTransformer.init : PointTransformer R := ⟨[fun pt => pt]⟩

/-- `PointTransformer._apply`: append one mapping to the pipeline and return
the pipeline for chaining. -/
def PointTransformer._apply (T : PointTransformer R) (fn : R × R → R × R) :
    PointTransformer R :=
  ⟨T._fns ++ [fn]⟩

/-- `PointTransformer.rotate` (takes the rotation angle in radians already
multiplied out: the source computes `radians = RADIANS * angle`). -/
def PointTransformer.rotate (T : PointTransformer R) (G : Geom R) (angle : R) :
    PointTransformer R :=
  T._apply (fun pt => (pt.1 * G.cos (G.pi / 180 * angle) + pt.2 * G.sin (G.pi / 180 * angle),
                       pt.2 * G.cos (G.pi / 180 * angle) - pt.1 * G.sin (G.pi / 180 * angle)))

/-- `PointTransformer.translate`. -/
def PointTransformer.translate (T : PointTransformer R) (x y : R) : PointTransformer R :=
  T._apply (fun pt => (pt.1 + x, pt.2 + y))

/-- `PointTransformer.scale`. -/
def PointTransformer.scale (T : PointTransformer R) (x y : R) : PointTransformer R :=
  T._apply (fun pt => (pt.1 * x, pt.2 * y))

/-- `PointTransformer.mirror_horizontal`. -/
def PointTransformer.mirror_horizontal (T : PointTransformer R) : PointTransformer R :=
  T._apply (fun pt => (-pt.1, pt.2))

/-- `PointTransformer.mirror_vertical`. -/
def PointTransformer.mirror_vertical (T : PointTransformer R) : PointTransformer R :=
  T._apply (fun pt => (pt.1, -pt.2))

/-- `PointTransformer.limit`. -/
def PointTransformer.limit (T : PointTransformer R) (x_max x_min y_max y_min : R) :
    PointTransformer R :=
  T._apply (fun pt => (min (max pt.1 x_min) x_max, min (max pt.2 y_min) y_max))

/-- `PointTransformer.transform`: compose the accumulated functions with
`reduce(lambda fn1, fn2: lambda pt: fn2(fn1(pt)), self._fns)` and map the
composite over the points.  Python's `reduce` without an initial value raises
`TypeError` on an empty list, hence the `Option`; by construction `_fns` is
never empty. -/
def PointTransformer.transform (T : PointTransformer R) (points : List (R × R)) :
    Option (List (R × R)) :=
  match T._fns with
  | [] => none
  | fn :: fns => some (points.map (fns.foldl (fun fn1 fn2 => fun pt => fn2 (fn1 pt)) fn))

/-- State-passing form of `PointTransformer.transform`: the method reads
`self._fns` and the argument list but writes neither, so its explicit-state
embedding returns both unchanged next to the result. -/
def PointTransformer.transformM (T : PointTransformer R) (points : List (R × R)) :
    Option (List (R × R)) × PointTransformer R × List (R × R) :=
  (T.transform points, T, points)

/-- The single error kind of the generators: the source raises `ValueError`
(the specification's `InvalidArgument`) with a message. -/
inductive PyErr where
  | invalidArgument (msg : String)
deriving DecidableEq

/-- The constructor state shared by `LinearScribble`, `BunchedScribble` and
`CurvyScribble`: an origin and the two pluggable step functions. -/
structure Scribble (R : Type) where
  origin : R × R
  radius_modifier_fn : R → R
  angle_modifier_fn : R → R

/-- `LinearScribble._get_new_point`: the circle-point formula
(`RADIANS = pi / 180`) followed by the radius/angle updates.  Returns
`(new_point, new_angle, new_radius)`. -/
def _get_new_point (G : Geom R) (S : Scribble R) (angle radius : R) : (R × R) × R × R :=
  ((radius * G.cos (angle * (G.pi / 180)) + S.origin.1,
    radius * G.sin (angle * (G.pi / 180)) + S.origin.2),
   S.angle_modifier_fn angle, S.radius_modifier_fn radius)

/-- The `while length < max_length` loop of `LinearScribble.get_points`,
with explicit fuel (`none` = fuel exhausted mid-loop). -/
def linear_loop (G : Geom R) (S : Scribble R) (max_length : R) :
    ℕ → List (R × R) → R → R → R → Option (List (R × R))
  | 0, _, _, _, _ => none
  | fuel + 1, points, length, angle, radius =>
    if length < max_length then
      match points.getLast? with
      | some last =>
        if max_length < length + distance G last (_get_new_point G S angle radius).1 then
          some points
        else
          linear_loop G S max_length fuel (points ++ [(_get_new_point G S angle radius).1])
            (length + distance G last (_get_new_point G S angle radius).1)
            (_get_new_point G S angle radius).2.1 (_get_new_point G S angle radius).2.2
      | none =>
        linear_loop G S max_length fuel (points ++ [(_get_new_point G S angle radius).1])
          length (_get_new_point G S angle radius).2.1 (_get_new_point G S angle radius).2.2
    else some points

/-- `LinearScribble.get_points`: argument guards, then the generation loop
started from `points = []`, `length = 0`, `angle = 0`, `radius = initial_radius`. -/
def LinearScribble.get_points (G : Geom R) (S : Scribble R) (fuel : ℕ)
    (initial_radius max_length : R) : Except PyErr (Option (List (R × R))) :=
  if initial_radius ≤ 0 then .error (.invalidArgument "initial_radius must be > 0")
  else if max_length ≤ 0 then .error (.invalidArgument "max_length must be > 0")
  else .ok (linear_loop G S max_length fuel [] 0 0 initial_radius)

/-- `BunchedScribble.MINIMUM_STEPS` clamp `_min_steps`. -/
def _min_steps (steps : ℕ) : ℕ := max steps 10

/-- The quadratic polynomial `gen_coord` of `BunchedScribble.bezier_curve_points`
for one coordinate `i`: `terminus_1[i]*(1-t)**2 + control[i]*2*(1-t)*t + terminus_2[i]*t**2`. -/
def gen_coord (terminus_1_i control_i terminus_2_i t : R) : R :=
  terminus_1_i * (1 - t) ^ 2 + control_i * 2 * (1 - t) * t + terminus_2_i * t ^ 2

/-- One point of the quadratic Bezier curve at parameter `t`. -/
def bezier_point (terminus_1 control terminus_2 : R × R) (t : R) : R × R :=
  (gen_coord terminus_1.1 control.1 terminus_2.1 t,
   gen_coord terminus_1.2 control.2 terminus_2.2 t)

/-- `BunchedScribble.bezier_curve_points`: `[terminus_1]` followed by the curve
evaluated at `t = i * (1.0 / n_steps)` for `i in range(1, n_steps + 1)`. -/
def bezier_curve_points (terminus_1 control terminus_2 : R × R) (n_steps : ℕ) :
    List (R × R) :=
  terminus_1 :: (List.range' 1 n_steps).map
    (fun (i : ℕ) => bezier_point terminus_1 control terminus_2 ((i : R) * (1 / (n_steps : R))))

/-- The `while n_points > 0 and curve_length > max_length` loop of
`BunchedScribble._shorten_curve`, popping points from the tail.  The fuel is
instantiated with the length of the list, which bounds the number of pops. -/
def shorten_loop (G : Geom R) (max_length : R) : ℕ → List (R × R) → R → List (R × R) × R
  | 0, points, curve_length => (points, curve_length)
  | f + 1, points, curve_length =>
    if max_length < curve_length then
      match points.getLast? with
      | none => (points, curve_length)
      | some removed =>
        match points.dropLast.getLast? with
        | some last => shorten_loop G max_length f points.dropLast
            (curve_length - distance G last removed)
        | none => shorten_loop G max_length f points.dropLast curve_length
    else (points, curve_length)

/-- `BunchedScribble._shorten_curve`: run the popping loop, then
`return points, curve_length` if any point is left, else `return [], 0`. -/
def _shorten_curve (G : Geom R) (points : List (R × R)) (curve_length max_length : R) :
    List (R × R) × R :=
  if 0 < (shorten_loop G max_length points.length points curve_length).1.length then
    shorten_loop G max_length points.length points curve_length
  else ([], 0)

/-- The `while len(point_pool) < 3` refill loop shared by `BunchedScribble` and
`CurvyScribble`.  At most `3` points are ever missing, so fuel `3` makes the
recursion structural.  Returns the filled pool and the updated angle/radius. -/
def fill_pool_aux (G : Geom R) (S : Scribble R) :
    ℕ → List (R × R) → R → R → List (R × R) × R × R
  | 0, point_pool, angle, radius => (point_pool, angle, radius)
  | f + 1, point_pool, angle, radius =>
    if point_pool.length < 3 then
      fill_pool_aux G S f (point_pool ++ [(_get_new_point G S angle radius).1])
        (_get_new_point G S angle radius).2.1 (_get_new_point G S angle radius).2.2
    else (point_pool, angle, radius)

/-- The pool refill entry point. -/
def fill_pool (G : Geom R) (S : Scribble R) (point_pool : List (R × R))
    (angle radius : R) : List (R × R) × R × R :=
  fill_pool_aux G S 3 point_pool angle radius

/-- The `while length < max_length` loop of `BunchedScribble.get_points`:
refill the pool, pop `terminus_1` and `control`, peek `terminus_2`, build the
Bezier segment, then either append it in full and continue, or shorten it
against the remaining budget and stop. -/
def bunched_loop (G : Geom R) (S : Scribble R) (max_length : R) (n_steps : ℕ) :
    ℕ → List (R × R) → R → List (R × R) → R → R → Option (List (R × R))
  | 0, _, _, _, _, _ => none
  | fuel + 1, points, length, point_pool, angle, radius =>
    if length < max_length then
      match fill_pool G S point_pool angle radius with
      | (terminus_1 :: control :: terminus_2 :: tail, angle2, radius2) =>
        match total_length G (bezier_curve_points terminus_1 control terminus_2 n_steps) with
        | some curve_length =>
          if max_length - length < curve_length then
            some (points ++ (_shorten_curve G
              (bezier_curve_points terminus_1 control terminus_2 n_steps)
              curve_length (max_length - length)).1)
          else
            bunched_loop G S max_length n_steps fuel
              (points ++ bezier_curve_points terminus_1 control terminus_2 n_steps)
              (length + curve_length) (terminus_2 :: tail) angle2 radius2
        | none => none
      | _ => none
    else some points

/-- `BunchedScribble.get_points`. -/
def BunchedScribble.get_points (G : Geom R) (S : Scribble R) (fuel : ℕ)
    (initial_radius max_length : R) (steps : ℕ) : Except PyErr (Option (List (R × R))) :=
  if initial_radius ≤ 0 then .error (.invalidArgument "initial_radius must be > 0")
  else if max_length ≤ 0 then .error (.invalidArgument "max_length must be > 0")
  else .ok (bunched_loop G S max_length (_min_steps steps) fuel [] 0 [] 0 initial_radius)

/-- The curve segments emitted by the `BunchedScribble.get_points` loop: the
same loop as `bunched_loop`, branch for branch, except that each curve segment
appended to the output is kept as a separate list instead of being
concatenated (a shortened final segment that has become empty emits nothing).
This names, for the statements below, which segments the algorithm emits. -/
def bunched_loop_segments (G : Geom R) (S : Scribble R) (max_length : R) (n_steps : ℕ) :
    ℕ → List (List (R × R)) → R → List (R × R) → R → R → Option (List (List (R × R)))
  | 0, _, _, _, _, _ => none
  | fuel + 1, segs, length, point_pool, angle, radius =>
    if length < max_length then
      match fill_pool G S point_pool angle radius with
      | (terminus_1 :: control :: terminus_2 :: tail, angle2, radius2) =>
        match total_length G (bezier_curve_points terminus_1 control terminus_2 n_steps) with
        | some curve_length =>
          if max_length - length < curve_length then
            some (segs ++
              match (_shorten_curve G
                (bezier_curve_points terminus_1 control terminus_2 n_steps)
                curve_length (max_length - length)).1 with
              | [] => []
              | s1 :: srest => [s1 :: srest])
          else
            bunched_loop_segments G S max_length n_steps fuel
              (segs ++ [bezier_curve_points terminus_1 control terminus_2 n_steps])
              (length + curve_length) (terminus_2 :: tail) angle2 radius2
        | none => none
      | _ => none
    else some segs

/-- The `while length < max_length` loop of `CurvyScribble.get_points`.
`cut` is the precomputed index `int((n_steps + 1) * 5 / 6) - 1`: the generated
segment is cut down to the prefix of the first `cut + 1` points, its length is
accounted on that whole prefix, but its final point is popped from the output
and pushed back on the front of the pool to become the next `terminus_1`. -/
def curvy_loop (G : Geom R) (S : Scribble R) (max_length : R) (n_steps cut : ℕ) :
    ℕ → List (R × R) → R → List (R × R) → R → R → Option (List (R × R))
  | 0, _, _, _, _, _ => none
  | fuel + 1, points, length, point_pool, angle, radius =>
    if length < max_length then
      match fill_pool G S point_pool angle radius with
      | (terminus_1 :: control :: terminus_2 :: tail, angle2, radius2) =>
        match total_length G
          ((bezier_curve_points terminus_1 control terminus_2 n_steps).take (cut + 1)) with
        | some curve_length =>
          if max_length - length < curve_length then
            some (points ++ (_shorten_curve G
              ((bezier_curve_points terminus_1 control terminus_2 n_steps).take (cut + 1))
              curve_length (max_length - length)).1)
          else
            match ((bezier_curve_points terminus_1 control terminus_2 n_steps).take
                (cut + 1)).getLast? with
            | some new_terminus_1 =>
              curvy_loop G S max_length n_steps cut fuel
                (points ++ ((bezier_curve_points terminus_1 control terminus_2 n_steps).take
                  (cut + 1)).dropLast)
                (length + curve_length) (new_terminus_1 :: terminus_2 :: tail) angle2 radius2
            | none => none
        | none => none
      | _ => none
    else some points

/-- `CurvyScribble.get_points`: guards, clamp of `n_steps`, computation of the
cut index `int((n_steps + 1) * 5 / 6) - 1` (exact floor division on naturals),
then the loop. -/
def CurvyScribble.get_points (G : Geom R) (S : Scribble R) (fuel : ℕ)
    (initial_radius max_length : R) (n_steps : ℕ) : Except PyErr (Option (List (R × R))) :=
  if initial_radius ≤ 0 then .error (.invalidArgument "initial_radius must be > 0")
  else if max_length ≤ 0 then .error (.invalidArgument "max_length must be > 0")
  else .ok (curvy_loop G S max_length (_min_steps n_steps)
    ((_min_steps n_steps + 1) * 5 / 6 - 1) fuel [] 0 [] 0 initial_radius)

/-- The step-function configuration used by concrete witnesses: origin `(0,0)`,
constant radius, angle increasing by 15 degrees per step. -/
def circleWalk (R : Type) [LinearOrderedField R] : Scribble R :=
  ⟨(0, 0), fun r => r, fun a => a + 15⟩

/-- The 19 points produced by `LinearScribble.get_points` over the rational
witness geometry with `circleWalk`, `initial_radius = 10`, `max_length = 42`:
a diamond-shaped walk hitting `(10,0)`, `(0,10)`, `(-10,0)`, `(0,-10)` at
indices 0, 6, 12, 18. -/
def circle19 : List (ℚ × ℚ) :=
  [(10, 0), (25/3, 5/3), (20/3, 10/3), (5, 5), (10/3, 20/3), (5/3, 25/3), (0, 10),
   (-5/3, 25/3), (-10/3, 20/3), (-5, 5), (-20/3, 10/3), (-25/3, 5/3), (-10, 0),
   (-25/3, -5/3), (-20/3, -10/3), (-5, -5), (-10/3, -20/3), (-5/3, -25/3), (0, -10)]

/-- The 17 points produced by `BunchedScribble.get_points` over the rational
witness geometry with `circleWalk`, `initial_radius = 6`, `max_length = 3`,
`steps = 10`: one full Bezier segment ending at `(4, 2)` followed by a
shortened one starting at `(4, 2)` — an adjacent duplicate at the boundary. -/
def bunched17 : List (ℚ × ℚ) :=
  [(6, 0), (29/5, 1/5), (28/5, 2/5), (27/5, 3/5), (26/5, 4/5), (5, 1), (24/5, 6/5),
   (23/5, 7/5), (22/5, 8/5), (21/5, 9/5), (4, 2), (4, 2), (19/5, 11/5), (18/5, 12/5),
   (17/5, 13/5), (16/5, 14/5), (3, 3)]

/-- The `k`-th point of the constant-radius walk with +15 degree steps and
radius 10 around the origin: the generator's point formula at angle `15 k`. -/
def circlePt (G : Geom R) (k : ℕ) : R × R :=
  (10 * G.cos ((15 * (k : R)) * (G.pi / 180)), 10 * G.sin ((15 * (k : R)) * (G.pi / 180)))

theorem totalLength_nil (G : Geom R) : totalLength G ([] : List (R × R)) = 0 := rfl

theorem totalLength_single (G : Geom R) (p : R × R) : totalLength G [p] = 0 := rfl

theorem totalLength_cons_cons (G : Geom R) (p q : R × R) (l : List (R × R)) :
    totalLength G (p :: q :: l) = distance G p q + totalLength G (q :: l) := rfl

theorem total_length_go_eq (G : Geom R) :
    ∀ (l : List (R × R)) (p : R × R) (t : R),
      total_length_go G p l t = t + totalLength G (p :: l)
  | [], _, t => by simp [total_length_go, totalLength]
  | q :: rest, p, t => by
    rw [total_length_go, total_length_go_eq G rest q, totalLength_cons_cons]
    ring

/-- On a nonempty list the source's `total_length` computes exactly the sum of
consecutive distances. -/
theorem total_length_eq_totalLength (G : Geom R) (p : R × R) (l : List (R × R)) :
    total_length G (p :: l) = some (totalLength G (p :: l)) := by
  rw [total_length, total_length_go_eq, zero_add]

/-- C3, counterexample: on the empty sequence the source's `total_length` does
not return 0 — it evaluates `points[0]` first and fails with `IndexError`
(embedded as `none`). -/
theorem claim_C3_counterexample :
    total_length ratGeom ([] : List (ℚ × ℚ)) = none ∧
    total_length ratGeom ([] : List (ℚ × ℚ)) ≠ some 0 := by
  refine ⟨rfl, ?_⟩
  simp [total_length]

/-- C3 (amended): `total_length(points)` equals the sum of Euclidean distances
between consecutive points for every nonempty sequence — in particular it
returns 0 for every sequence of length 1 — but on the empty sequence it fails
(`IndexError` from `points[0]`) instead of returning 0. -/
theorem claim_C3 (G : Geom R) :
    (∀ (p : R × R) (l : List (R × R)),
       total_length G (p :: l) = some (totalLength G (p :: l))) ∧
    (∀ p : R × R, total_length G [p] = some 0) ∧
    total_length G ([] : List (R × R)) = none := by
  refine ⟨fun p l => total_length_eq_totalLength G p l, fun p => ?_, rfl⟩
  rw [total_length_eq_totalLength, totalLength_single]

theorem foldl_comp_apply :
    ∀ (fns : List (R × R → R × R)) (fn : R × R → R × R) (pt : R × R),
      fns.foldl (fun fn1 fn2 => fun q => fn2 (fn1 q)) fn pt =
      fns.foldl (fun p f => f p) (fn pt)
  | [], _, _ => rfl
  | g :: fns, fn, pt => by
    rw [List.foldl_cons, List.foldl_cons, foldl_comp_apply fns]

/-- C7: `transform` applies the registered mappings in registration order
(first added = first applied, witnessed by the left fold over `_fns`) to every
input point; and on the concrete input point `(0, 0)` the pipeline
`translate(5, -10)` then `scale(3.5, 0.5)` disagrees with the pipeline
`scale(3.5, 0.5)` then `translate(5, -10)`. -/
theorem claim_C7 :
    (∀ (fn : R × R → R × R) (fns : List (R × R → R × R)) (points : List (R × R)),
       PointTransformer.transform ⟨fn :: fns⟩ points =
         some (points.map (fun pt => (fn :: fns).foldl (fun p f => f p) pt))) ∧
    ((PointTransformer.init.translate 5 (-10)).scale (3.5 : R) 0.5).transform
        [((0 : R), (0 : R))] ≠
      ((PointTransformer.init.scale (3.5 : R) 0.5).translate 5 (-10)).transform
        [((0 : R), (0 : R))] := by
  constructor
  · intro fn fns points
    rw [PointTransformer.transform]
    refine congrArg some (List.map_congr_left fun pt _ => ?_)
    rw [List.foldl_cons, foldl_comp_apply]
  · intro h
    rw [PointTransformer.transform, PointTransformer.transform] at h
    simp only [PointTransformer.init, PointTransformer.translate, PointTransformer.scale,
      PointTransformer._apply, List.cons_append, List.nil_append, List.foldl_cons,
      List.foldl_nil, List.map_cons, List.map_nil, Option.some.injEq, List.cons.injEq,
      Prod.mk.injEq] at h
    have h1 := h.1.1
    norm_num at h1

/-- C8: in the explicit-state embedding, `transform` leaves both the pipeline's
function list and the input sequence unchanged, so applying one pipeline twice,
or to two distinct point sequences, yields each sequence's transform
independently and identically each time. -/
theorem claim_C8 (T : PointTransformer R) (points points2 : List (R × R)) :
    T.transformM points = (T.transform points, T, points) ∧
    ((T.transformM points).2.1.transformM points2).1 = (T.transformM points2).1 ∧
    ((T.transformM points).2.1.transformM points).1 = (T.transformM points).1 :=
  ⟨rfl, rfl, rfl⟩

theorem gen_coord_zero (a c b : R) : gen_coord a c b 0 = a := by
  rw [gen_coord]; ring

theorem gen_coord_one (a c b : R) : gen_coord a c b 1 = b := by
  rw [gen_coord]; ring

theorem bezier_point_zero (t1 c t2 : R × R) : bezier_point t1 c t2 0 = t1 := by
  rw [bezier_point, gen_coord_zero, gen_coord_zero]

theorem bezier_point_one (t1 c t2 : R × R) : bezier_point t1 c t2 1 = t2 := by
  rw [bezier_point, gen_coord_one, gen_coord_one]

theorem bezier_length (t1 c t2 : R × R) (n : ℕ) :
    (bezier_curve_points t1 c t2 n).length = n + 1 := by
  simp [bezier_curve_points]

theorem bezier_get (t1 c t2 : R × R) (n : ℕ) (i : ℕ)
    (h : i < (bezier_curve_points t1 c t2 n).length) :
    (bezier_curve_points t1 c t2 n).get ⟨i, h⟩ = bezier_point t1 c t2 ((i : R) / (n : R)) := by
  rw [List.get_eq_getElem]
  cases i with
  | zero =>
    simp only [bezier_curve_points, List.getElem_cons_zero, Nat.cast_zero, zero_div,
      bezier_point_zero]
  | succ i =>
    simp only [bezier_curve_points, List.getElem_cons_succ, List.getElem_map,
      List.getElem_range'_1]
    congr 1
    push_cast
    ring

theorem bezier_getLast (t1 c t2 : R × R) (n : ℕ) (hn : 1 ≤ n) :
    (bezier_curve_points t1 c t2 n).getLast? = some t2 := by
  have h : n < (bezier_curve_points t1 c t2 n).length := by rw [bezier_length]; omega
  have hn0 : (n : R) ≠ 0 := Nat.cast_ne_zero.mpr (by omega)
  rw [List.getLast?_eq_getElem?, bezier_length, Nat.add_sub_cancel,
    List.getElem?_eq_getElem h,
    show (bezier_curve_points t1 c t2 n)[n] = (bezier_curve_points t1 c t2 n).get ⟨n, h⟩
      from rfl,
    bezier_get, div_self hn0, bezier_point_one]

/-- The squared distance from the origin of any interior point of the Bezier
curve through `(10,5)`, `(7,20)`, `(2,14)` stays below `449 = 7² + 20²`. -/
theorem bezier_sq_bound (t : R) (ht : 0 < t) (ht1 : t < 1) :
    gen_coord 10 7 2 t ^ 2 + gen_coord 5 20 14 t ^ 2 < 449 := by
  rw [gen_coord, gen_coord]
  nlinarith [mul_pos ht (sub_pos.2 ht1), sq_nonneg (t * (1 - t)), sq_nonneg t,
    sq_nonneg (1 - t), sq_nonneg (t - 1/2), mul_pos (mul_pos ht ht) (sub_pos.2 ht1),
    mul_pos ht (mul_pos ht (sub_pos.2 ht1))]

theorem bezier_concrete_lt (G : Geom R)
    (hmono : ∀ a b : R, 0 ≤ a → a < b → G.sqrt a < G.sqrt b)
    (t : R) (ht : 0 < t) (ht1 : t < 1) :
    distance G (0, 0) (bezier_point ((10 : R), 5) (7, 20) (2, 14) t) <
      distance G (0, 0) ((7 : R), 20) := by
  rw [distance, distance, bezier_point]
  have e449 : (((7:R), (20:R)).1 - ((0:R), (0:R)).1) ^ 2 +
      (((7:R), (20:R)).2 - ((0:R), (0:R)).2) ^ 2 = 449 := by norm_num
  rw [e449]
  refine hmono _ _ (by positivity) ?_
  have hx : (gen_coord ((10:R),5).1 ((7:R),20).1 ((2:R),14).1 t,
      gen_coord ((10:R),5).2 ((7:R),20).2 ((2:R),14).2 t).1 - ((0:R), (0:R)).1 =
      gen_coord 10 7 2 t := by norm_num
  have hy : (gen_coord ((10:R),5).1 ((7:R),20).1 ((2:R),14).1 t,
      gen_coord ((10:R),5).2 ((7:R),20).2 ((2:R),14).2 t).2 - ((0:R), (0:R)).2 =
      gen_coord 5 20 14 t := by norm_num
  rw [hx, hy]
  exact bezier_sq_bound t ht ht1

/-- C4: `bezier_curve_points(T1, C, T2, n)` returns exactly `n+1` points, the
`i`-th being the quadratic Bezier polynomial evaluated at `t = i/n` (so the
parameters are evenly spaced over `[0,1]`), with first point `T1` and last
point `T2`; and for `T1=(10,5)`, `C=(7,20)`, `T2=(2,14)` every interior point
is strictly closer to the origin than the control point is. -/
theorem claim_C4 (G : Geom R)
    (hmono : ∀ a b : R, 0 ≤ a → a < b → G.sqrt a < G.sqrt b) :
    (∀ (t1 c t2 : R × R) (n : ℕ), 1 ≤ n →
      (bezier_curve_points t1 c t2 n).length = n + 1 ∧
      (bezier_curve_points t1 c t2 n).head? = some t1 ∧
      (bezier_curve_points t1 c t2 n).getLast? = some t2 ∧
      ∀ (i : ℕ) (h : i < (bezier_curve_points t1 c t2 n).length),
        (bezier_curve_points t1 c t2 n).get ⟨i, h⟩ =
          bezier_point t1 c t2 ((i : R) / (n : R))) ∧
    (∀ (n : ℕ), 1 ≤ n →
      ∀ (i : ℕ) (h : i < (bezier_curve_points ((10:R), 5) (7, 20) (2, 14) n).length),
        0 < i → i < n →
        distance G (0, 0) ((bezier_curve_points ((10:R), 5) (7, 20) (2, 14) n).get ⟨i, h⟩) <
          distance G (0, 0) ((7 : R), 20)) := by
  constructor
  · intro t1 c t2 n hn
    exact ⟨bezier_length t1 c t2 n, rfl, bezier_getLast t1 c t2 n hn,
      fun i h => bezier_get t1 c t2 n i h⟩
  · intro n hn i h hi hin
    have hn0 : (0 : R) < (n : R) := by exact_mod_cast (by omega : 0 < n)
    have ht : (0 : R) < (i : R) / (n : R) := div_pos (by exact_mod_cast hi) hn0
    have ht1 : (i : R) / (n : R) < 1 := (div_lt_one hn0).mpr (by exact_mod_cast hin)
    rw [bezier_get]
    exact bezier_concrete_lt G hmono _ ht ht1

/-- Witness for C4: the theorem applied to the concrete geometry with the
identity as (strictly monotone) square root, curve `(10,5)`, `(7,20)`,
`(2,14)` and `n = 10` as in the repository's test. -/
theorem claim_C4_witness :
    (bezier_curve_points ((10:ℚ), 5) (7, 20) (2, 14) 10).length = 10 + 1 ∧
    (bezier_curve_points ((10:ℚ), 5) (7, 20) (2, 14) 10).head? = some (10, 5) ∧
    (bezier_curve_points ((10:ℚ), 5) (7, 20) (2, 14) 10).getLast? = some (2, 14) :=
  ⟨((claim_C4 (Geom.mk (fun x => x) 2 cosQ sinQ) (fun _ _ _ hab => hab)).1
      (10, 5) (7, 20) (2, 14) 10 (by norm_num)).1,
   ((claim_C4 (Geom.mk (fun x => x) 2 cosQ sinQ) (fun _ _ _ hab => hab)).1
      (10, 5) (7, 20) (2, 14) 10 (by norm_num)).2.1,
   ((claim_C4 (Geom.mk (fun x => x) 2 cosQ sinQ) (fun _ _ _ hab => hab)).1
      (10, 5) (7, 20) (2, 14) 10 (by norm_num)).2.2.1⟩

theorem ratSqrt_nonneg (q : ℚ) : 0 ≤ ratSqrt q := by
  rw [ratSqrt]
  positivity

/-- C5: on the point list `[(0,0),(3,5),(20,9),(-10,9),(-5,-5)]` with full
length `K` and last-three-points length `D`, `_shorten_curve` with budget
`K - D + 1` discards exactly the last two points and returns the 3-point
prefix together with its exact recomputed length. -/
theorem claim_C5 (G : Geom R) (h0 : ∀ x : R, 0 ≤ G.sqrt x) (h900 : G.sqrt 900 = 30) :
    _shorten_curve G [((0:R), 0), (3, 5), (20, 9), (-10, 9), (-5, -5)]
      (totalLength G [((0:R), 0), (3, 5), (20, 9), (-10, 9), (-5, -5)])
      (totalLength G [((0:R), 0), (3, 5), (20, 9), (-10, 9), (-5, -5)] -
        totalLength G [((20:R), 9), (-10, 9), (-5, -5)] + 1) =
      ([((0:R), 0), (3, 5), (20, 9)], totalLength G [((0:R), 0), (3, 5), (20, 9)]) := by
  have hd3 : distance G ((20:R), 9) (-10, 9) = 30 := by
    rw [distance]
    norm_num
    exact h900
  have hd4 : 0 ≤ distance G ((-10:R), 9) (-5, -5) := h0 _
  set K := totalLength G [((0:R), 0), (3, 5), (20, 9), (-10, 9), (-5, -5)] with hK
  set D := totalLength G [((20:R), 9), (-10, 9), (-5, -5)] with hD
  have hc1 : K - D + 1 < K := by
    rw [hK, hD]
    simp only [totalLength_cons_cons, totalLength_single]
    linarith
  have e1 : shorten_loop G (K - D + 1) 5 [((0:R), 0), (3, 5), (20, 9), (-10, 9), (-5, -5)] K =
      shorten_loop G (K - D + 1) 4 [((0:R), 0), (3, 5), (20, 9), (-10, 9)]
        (K - distance G ((-10:R), 9) (-5, -5)) := by
    rw [shorten_loop, if_pos hc1]
    with_unfolding_all rfl
  have hc2 : K - D + 1 < K - distance G ((-10:R), 9) (-5, -5) := by
    rw [hK, hD]
    simp only [totalLength_cons_cons, totalLength_single]
    linarith
  have e2 : shorten_loop G (K - D + 1) 4 [((0:R), 0), (3, 5), (20, 9), (-10, 9)]
        (K - distance G ((-10:R), 9) (-5, -5)) =
      shorten_loop G (K - D + 1) 3 [((0:R), 0), (3, 5), (20, 9)]
        (K - distance G ((-10:R), 9) (-5, -5) - distance G ((20:R), 9) (-10, 9)) := by
    rw [shorten_loop, if_pos hc2]
    with_unfolding_all rfl
  have hc3 : ¬ (K - D + 1 <
      K - distance G ((-10:R), 9) (-5, -5) - distance G ((20:R), 9) (-10, 9)) := by
    rw [hK, hD]
    simp only [totalLength_cons_cons, totalLength_single]
    intro hlt
    linarith
  have e3 : shorten_loop G (K - D + 1) 3 [((0:R), 0), (3, 5), (20, 9)]
        (K - distance G ((-10:R), 9) (-5, -5) - distance G ((20:R), 9) (-10, 9)) =
      ([((0:R), 0), (3, 5), (20, 9)],
        K - distance G ((-10:R), 9) (-5, -5) - distance G ((20:R), 9) (-10, 9)) := by
    rw [shorten_loop, if_neg hc3]
  have hlen5 : ([((0:R), 0), (3, 5), (20, 9), (-10, 9), (-5, -5)] : List (R × R)).length = 5 :=
    rfl
  rw [_shorten_curve, hlen5, e1, e2, e3]
  rw [if_pos (by norm_num : 0 < ([((0:R), 0), (3, 5), (20, 9)] : List (R × R)).length)]
  rw [Prod.mk.injEq]
  refine ⟨rfl, ?_⟩
  rw [hK]
  simp only [totalLength_cons_cons, totalLength_single]
  ring

/-- Witness for C5: the theorem applied to the concrete rational geometry,
where the square-root stand-in is nonnegative and maps `900` to `30`. -/
theorem claim_C5_witness :
    _shorten_curve ratGeom [((0:ℚ), 0), (3, 5), (20, 9), (-10, 9), (-5, -5)]
      (totalLength ratGeom [((0:ℚ), 0), (3, 5), (20, 9), (-10, 9), (-5, -5)])
      (totalLength ratGeom [((0:ℚ), 0), (3, 5), (20, 9), (-10, 9), (-5, -5)] -
        totalLength ratGeom [((20:ℚ), 9), (-10, 9), (-5, -5)] + 1) =
      ([((0:ℚ), 0), (3, 5), (20, 9)], totalLength ratGeom [((0:ℚ), 0), (3, 5), (20, 9)]) :=
  claim_C5 ratGeom (fun q => ratSqrt_nonneg q) (by with_unfolding_all rfl)

theorem distance_nonneg (G : Geom R) (h0 : ∀ x : R, 0 ≤ G.sqrt x) (p q : R × R) :
    0 ≤ distance G p q := h0 _

theorem distance_self (G : Geom R) (hs0 : G.sqrt 0 = 0) (p : R × R) :
    distance G p p = 0 := by
  rw [distance, sub_self, sub_self]
  norm_num
  exact hs0

theorem totalLength_nonneg (G : Geom R) (h0 : ∀ x : R, 0 ≤ G.sqrt x) :
    ∀ l : List (R × R), 0 ≤ totalLength G l
  | [] => le_refl 0
  | [_] => le_refl 0
  | p :: q :: rest => by
    rw [totalLength_cons_cons]
    exact add_nonneg (h0 _) (totalLength_nonneg G h0 (q :: rest))

theorem totalLength_cons_head (G : Geom R) (p : R × R) (l : List (R × R)) (q : R × R)
    (hq : l.head? = some q) :
    totalLength G (p :: l) = distance G p q + totalLength G l := by
  cases l with
  | nil => simp at hq
  | cons a t =>
    rw [List.head?_cons, Option.some_inj] at hq
    subst hq
    rw [totalLength_cons_cons]

theorem totalLength_concat (G : Geom R) :
    ∀ (xs : List (R × R)) (q p : R × R), xs.getLast? = some q →
      totalLength G (xs ++ [p]) = totalLength G xs + distance G q p
  | [], q, p, h => by simp at h
  | [a], q, p, h => by
    rw [List.getLast?_singleton, Option.some_inj] at h
    subst h
    show totalLength G [a, p] = totalLength G [a] + distance G a p
    rw [totalLength_cons_cons, totalLength_single, totalLength_single]
    ring
  | a :: b :: xs, q, p, h => by
    rw [List.getLast?_cons_cons] at h
    have ih := totalLength_concat G (b :: xs) q p h
    rw [show (a :: b :: xs) ++ [p] = a :: ((b :: xs) ++ [p]) from rfl,
      totalLength_cons_head G a ((b :: xs) ++ [p]) b rfl, ih, totalLength_cons_cons]
    ring

theorem totalLength_le_concat (G : Geom R) (h0 : ∀ x : R, 0 ≤ G.sqrt x)
    (xs : List (R × R)) (p : R × R) :
    totalLength G xs ≤ totalLength G (xs ++ [p]) := by
  cases hg : xs.getLast? with
  | none =>
    rw [List.getLast?_eq_none_iff] at hg
    subst hg
    rw [List.nil_append, totalLength_nil, totalLength_single]
  | some q =>
    rw [totalLength_concat G xs q p hg]
    linarith [distance_nonneg G h0 q p]

theorem totalLength_append_cons (G : Geom R) :
    ∀ (xs : List (R × R)) (y : R × R) (ys : List (R × R)),
      totalLength G (xs ++ y :: ys) = totalLength G (xs ++ [y]) + totalLength G (y :: ys)
  | [], y, ys => by
    rw [List.nil_append, List.nil_append, totalLength_single, zero_add]
  | [a], y, ys => by
    show totalLength G (a :: y :: ys) = totalLength G [a, y] + totalLength G (y :: ys)
    rw [totalLength_cons_cons, totalLength_cons_cons, totalLength_single]
    ring
  | a :: b :: xs, y, ys => by
    have ih := totalLength_append_cons G (b :: xs) y ys
    rw [show (a :: b :: xs) ++ y :: ys = a :: ((b :: xs) ++ y :: ys) from rfl,
      totalLength_cons_head G a ((b :: xs) ++ y :: ys) b rfl, ih,
      show (a :: b :: xs) ++ [y] = a :: ((b :: xs) ++ [y]) from rfl,
      totalLength_cons_head G a ((b :: xs) ++ [y]) b rfl]
    ring

theorem head?_dropLast {α : Type} :
    ∀ (l : List α), l.dropLast ≠ [] → l.dropLast.head? = l.head?
  | [], h => absurd rfl h
  | [_], h => absurd rfl h
  | _ :: _ :: _, _ => by
    rw [List.dropLast_cons₂, List.head?_cons, List.head?_cons]

theorem shorten_loop_nil (G : Geom R) (max_length : R) :
    ∀ (f : ℕ) (cl : R), shorten_loop G max_length f [] cl = ([], cl)
  | 0, _ => rfl
  | f + 1, cl => by
    rw [shorten_loop]
    split
    · rfl
    · rfl

/-- Invariant of the `_shorten_curve` popping loop: started from a list with an
exact tracked length, it either empties the list or stops with an exact tracked
length within budget, preserving the head of the list. -/
theorem shorten_loop_spec (G : Geom R) (max_length : R) :
    ∀ (f : ℕ) (pts : List (R × R)) (cl : R),
      pts.length ≤ f → totalLength G pts = cl →
      (shorten_loop G max_length f pts cl).1 = [] ∨
      ((shorten_loop G max_length f pts cl).1 ≠ [] ∧
       totalLength G (shorten_loop G max_length f pts cl).1 =
         (shorten_loop G max_length f pts cl).2 ∧
       (shorten_loop G max_length f pts cl).2 ≤ max_length ∧
       (shorten_loop G max_length f pts cl).1.head? = pts.head?) := by
  intro f
  induction f with
  | zero =>
    intro pts cl hf hcl
    left
    have hnil : pts = [] := by
      cases pts with
      | nil => rfl
      | cons a l => simp at hf
    subst hnil
    rfl
  | succ f ih =>
    intro pts cl hf hcl
    rw [shorten_loop]
    split
    · split
      next hg =>
        rw [List.getLast?_eq_none_iff] at hg
        left
        exact hg
      next removed hg =>
        split
        next last hg2 =>
          have hne : pts ≠ [] := by
            intro h
            rw [h] at hg
            simp at hg
          have hsplit : pts.dropLast ++ [removed] = pts :=
            List.dropLast_append_getLast? removed (by rw [hg]; rfl)
          have hlen : pts.dropLast.length ≤ f := by
            have h1 := List.length_dropLast pts
            have h2 : 0 < pts.length := List.length_pos.mpr hne
            omega
          have htl : totalLength G pts.dropLast = cl - distance G last removed := by
            have hc := totalLength_concat G pts.dropLast last removed hg2
            rw [hsplit] at hc
            rw [hcl] at hc
            linarith
          rcases ih pts.dropLast (cl - distance G last removed) hlen htl with h | ⟨hne2, h1, h2, h3⟩
          · left
            exact h
          · right
            refine ⟨hne2, h1, h2, ?_⟩
            rw [h3]
            apply head?_dropLast
            intro hdl
            have hh : (shorten_loop G max_length f pts.dropLast
                (cl - distance G last removed)).1.head? = none := by
              rw [h3, hdl]
              rfl
            rw [List.head?_eq_none_iff] at hh
            exact hne2 hh
        next hg2 =>
          rw [List.getLast?_eq_none_iff] at hg2
          rw [hg2, shorten_loop_nil]
          left
          rfl
    · next hlt =>
      cases pts with
      | nil =>
        left
        rfl
      | cons a l =>
        right
        exact ⟨by simp, hcl, not_lt.mp hlt, rfl⟩

/-- `_shorten_curve` on a list with exact tracked length: either everything was
discarded (result `([], 0)`), or the result is a nonempty list whose returned
length is exactly its `totalLength`, fits the budget, and whose first point is
the first point of the input. -/
theorem shorten_curve_spec (G : Geom R) (pts : List (R × R)) (cl max_length : R)
    (hcl : totalLength G pts = cl) :
    (_shorten_curve G pts cl max_length).1 = [] ∨
    ((_shorten_curve G pts cl max_length).1 ≠ [] ∧
     totalLength G (_shorten_curve G pts cl max_length).1 =
       (_shorten_curve G pts cl max_length).2 ∧
     (_shorten_curve G pts cl max_length).2 ≤ max_length ∧
     (_shorten_curve G pts cl max_length).1.head? = pts.head?) := by
  rw [_shorten_curve]
  split
  · exact shorten_loop_spec G max_length pts.length pts cl le_rfl hcl
  · left
    rfl

theorem fill_pool_aux_prefix (G : Geom R) (S : Scribble R) :
    ∀ (f : ℕ) (pool : List (R × R)) (angle radius : R),
      ∃ ext, (fill_pool_aux G S f pool angle radius).1 = pool ++ ext
  | 0, pool, _, _ => ⟨[], by rw [fill_pool_aux]; simp⟩
  | f + 1, pool, angle, radius => by
    rw [fill_pool_aux]
    split
    · obtain ⟨ext, he⟩ := fill_pool_aux_prefix G S f
        (pool ++ [(_get_new_point G S angle radius).1])
        (_get_new_point G S angle radius).2.1 (_get_new_point G S angle radius).2.2
      refine ⟨(_get_new_point G S angle radius).1 :: ext, ?_⟩
      rw [he, List.append_assoc]
      rfl
    · exact ⟨[], by simp⟩

theorem fill_pool_head (G : Geom R) (S : Scribble R) (p0 : R × R) (r' : List (R × R))
    (angle radius : R) :
    ∃ ext, (fill_pool G S (p0 :: r') angle radius).1 = p0 :: (r' ++ ext) := by
  obtain ⟨ext, he⟩ := fill_pool_aux_prefix G S 3 (p0 :: r') angle radius
  exact ⟨ext, by rw [fill_pool, he]; rfl⟩

/-- Length-budget invariant of the `BunchedScribble.get_points` loop: if the
emitted points together with the pending pool head measure at most the tracked
length, and the tracked length is within the budget, then any list the loop
returns has total length within the budget. -/
theorem bunched_loop_bound (G : Geom R) (S : Scribble R) (h0 : ∀ x : R, 0 ≤ G.sqrt x)
    (hs0 : G.sqrt 0 = 0) (max_length : R) (n_steps : ℕ) (hn : 1 ≤ n_steps) :
    ∀ (fuel : ℕ) (points : List (R × R)) (length : R) (pool : List (R × R))
      (angle radius : R) (ps : List (R × R)),
      0 ≤ length → length ≤ max_length →
      (points = [] ∨ ∃ p0 r', pool = p0 :: r' ∧ totalLength G (points ++ [p0]) ≤ length) →
      bunched_loop G S max_length n_steps fuel points length pool angle radius = some ps →
      totalLength G ps ≤ max_length := by
  intro fuel
  induction fuel with
  | zero =>
    intro points length pool angle radius ps _ _ _ h
    exact absurd h (by rw [bunched_loop]; simp)
  | succ fuel ih =>
    intro points length pool angle radius ps hl0 hle hinv hrun
    rw [bunched_loop] at hrun
    split at hrun
    case isTrue hlt =>
      split at hrun
      case h_1 t1 c t2 tail angle2 radius2 hfill =>
        split at hrun
        case h_1 curve_length htl =>
          have hcurve : curve_length = totalLength G (bezier_curve_points t1 c t2 n_steps) := by
            have he : total_length G (bezier_curve_points t1 c t2 n_steps) =
                some (totalLength G (bezier_curve_points t1 c t2 n_steps)) :=
              total_length_eq_totalLength G t1 _
            rw [he, Option.some_inj] at htl
            exact htl.symm
          have hpre : totalLength G (points ++ [t1]) ≤ length := by
            rcases hinv with hpe | ⟨p0, r', hpool, hbound⟩
            · subst hpe
              rw [List.nil_append, totalLength_single]
              exact hl0
            · subst hpool
              obtain ⟨ext, hf⟩ := fill_pool_head G S p0 r' angle radius
              rw [hfill] at hf
              have ht1 : t1 = p0 := by
                have hh := congrArg List.head? hf
                simpa using hh
              rw [ht1]
              exact hbound
          split at hrun
          case isTrue hgt =>
            rw [Option.some_inj] at hrun
            subst hrun
            rcases shorten_curve_spec G (bezier_curve_points t1 c t2 n_steps) curve_length
                (max_length - length) hcurve.symm with hsc | ⟨hne, hlen2, hbud, hhead⟩
            · rw [hsc, List.append_nil]
              calc totalLength G points
                  ≤ totalLength G (points ++ [t1]) := totalLength_le_concat G h0 _ _
                _ ≤ length := hpre
                _ ≤ max_length := hle
            · have hh : (_shorten_curve G (bezier_curve_points t1 c t2 n_steps) curve_length
                  (max_length - length)).1.head? = some t1 := by
                rw [hhead]
                rfl
              obtain ⟨tail2, hsc1⟩ : ∃ tail2,
                  (_shorten_curve G (bezier_curve_points t1 c t2 n_steps) curve_length
                    (max_length - length)).1 = t1 :: tail2 := by
                cases hsc1 : (_shorten_curve G (bezier_curve_points t1 c t2 n_steps) curve_length
                    (max_length - length)).1 with
                | nil => exact absurd hsc1 hne
                | cons a t =>
                  rw [hsc1, List.head?_cons, Option.some_inj] at hh
                  subst hh
                  exact ⟨t, rfl⟩
              rw [hsc1, totalLength_append_cons G points t1 tail2]
              have hlen3 : totalLength G (t1 :: tail2) =
                  (_shorten_curve G (bezier_curve_points t1 c t2 n_steps) curve_length
                    (max_length - length)).2 := by
                rw [← hsc1]
                exact hlen2
              rw [hlen3]
              linarith
          case isFalse hng =>
            refine ih _ _ _ _ _ _ ?_ ?_ ?_ hrun
            · have hnn := totalLength_nonneg G h0 (bezier_curve_points t1 c t2 n_steps)
              rw [← hcurve] at hnn
              linarith
            · have hfit := le_of_not_lt hng
              linarith
            · right
              refine ⟨t2, tail, rfl, ?_⟩
              rw [List.append_assoc]
              have hblast : (bezier_curve_points t1 c t2 n_steps).getLast? = some t2 :=
                bezier_getLast t1 c t2 n_steps hn
              have hb2 : totalLength G (bezier_curve_points t1 c t2 n_steps ++ [t2]) =
                  totalLength G (bezier_curve_points t1 c t2 n_steps) + distance G t2 t2 :=
                totalLength_concat G _ t2 t2 hblast
              rw [distance_self G hs0, add_zero] at hb2
              have hshape : bezier_curve_points t1 c t2 n_steps ++ [t2] =
                  t1 :: ((List.range' 1 n_steps).map
                    (fun (i : ℕ) => bezier_point t1 c t2 ((i : R) * (1 / (n_steps : R)))) ++
                      [t2]) := rfl
              rw [hshape, totalLength_append_cons G points t1 _, ← hshape, hb2, ← hcurve]
              linarith
        case h_2 htl =>
          simp at hrun
      case h_2 hfill =>
        simp at hrun
    case isFalse hlt =>
      rw [Option.some_inj] at hrun
      subst hrun
      rcases hinv with hpe | ⟨p0, r', hpool, hbound⟩
      · subst hpe
        rw [totalLength_nil]
        linarith
      · calc totalLength G points
            ≤ totalLength G (points ++ [p0]) := totalLength_le_concat G h0 _ _
          _ ≤ length := hbound
          _ ≤ max_length := hle

/-- Length-budget invariant of the `CurvyScribble.get_points` loop.  The
tracked length over-counts the emitted points by exactly the distance to the
pending re-inserted terminus, which is the pool's head, so the same invariant
shape as for the bunched loop applies. -/
theorem curvy_loop_bound (G : Geom R) (S : Scribble R) (h0 : ∀ x : R, 0 ≤ G.sqrt x)
    (max_length : R) (n_steps cut : ℕ) :
    ∀ (fuel : ℕ) (points : List (R × R)) (length : R) (pool : List (R × R))
      (angle radius : R) (ps : List (R × R)),
      0 ≤ length → length ≤ max_length →
      (points = [] ∨ ∃ p0 r', pool = p0 :: r' ∧ totalLength G (points ++ [p0]) ≤ length) →
      curvy_loop G S max_length n_steps cut fuel points length pool angle radius = some ps →
      totalLength G ps ≤ max_length := by
  intro fuel
  induction fuel with
  | zero =>
    intro points length pool angle radius ps _ _ _ h
    exact absurd h (by rw [curvy_loop]; simp)
  | succ fuel ih =>
    intro points length pool angle radius ps hl0 hle hinv hrun
    rw [curvy_loop] at hrun
    split at hrun
    case isTrue hlt =>
      split at hrun
      case h_1 t1 c t2 tail angle2 radius2 hfill =>
        split at hrun
        case h_1 curve_length htl =>
          have hcurve : curve_length =
              totalLength G ((bezier_curve_points t1 c t2 n_steps).take (cut + 1)) := by
            have he : total_length G ((bezier_curve_points t1 c t2 n_steps).take (cut + 1)) =
                some (totalLength G ((bezier_curve_points t1 c t2 n_steps).take (cut + 1))) :=
              total_length_eq_totalLength G t1 _
            rw [he, Option.some_inj] at htl
            exact htl.symm
          have hpre : totalLength G (points ++ [t1]) ≤ length := by
            rcases hinv with hpe | ⟨p0, r', hpool, hbound⟩
            · subst hpe
              rw [List.nil_append, totalLength_single]
              exact hl0
            · subst hpool
              obtain ⟨ext, hf⟩ := fill_pool_head G S p0 r' angle radius
              rw [hfill] at hf
              have ht1 : t1 = p0 := by
                have hh := congrArg List.head? hf
                simpa using hh
              rw [ht1]
              exact hbound
          split at hrun
          case isTrue hgt =>
            rw [Option.some_inj] at hrun
            subst hrun
            rcases shorten_curve_spec G ((bezier_curve_points t1 c t2 n_steps).take (cut + 1))
                curve_length (max_length - length) hcurve.symm with hsc | ⟨hne, hlen2, hbud, hhead⟩
            · rw [hsc, List.append_nil]
              calc totalLength G points
                  ≤ totalLength G (points ++ [t1]) := totalLength_le_concat G h0 _ _
                _ ≤ length := hpre
                _ ≤ max_length := hle
            · have hh : (_shorten_curve G ((bezier_curve_points t1 c t2 n_steps).take (cut + 1))
                  curve_length (max_length - length)).1.head? = some t1 := by
                rw [hhead]
                rfl
              obtain ⟨tail2, hsc1⟩ : ∃ tail2,
                  (_shorten_curve G ((bezier_curve_points t1 c t2 n_steps).take (cut + 1))
                    curve_length (max_length - length)).1 = t1 :: tail2 := by
                cases hsc1 : (_shorten_curve G ((bezier_curve_points t1 c t2 n_steps).take (cut + 1))
                    curve_length (max_length - length)).1 with
                | nil => exact absurd hsc1 hne
                | cons a t =>
                  rw [hsc1, List.head?_cons, Option.some_inj] at hh
                  subst hh
                  exact ⟨t, rfl⟩
              rw [hsc1, totalLength_append_cons G points t1 tail2]
              have hlen3 : totalLength G (t1 :: tail2) =
                  (_shorten_curve G ((bezier_curve_points t1 c t2 n_steps).take (cut + 1))
                    curve_length (max_length - length)).2 := by
                rw [← hsc1]
                exact hlen2
              rw [hlen3]
              linarith
          case isFalse hng =>
            split at hrun
            case h_1 q hql =>
              refine ih _ _ _ _ _ _ ?_ ?_ ?_ hrun
              · have hnn := totalLength_nonneg G h0
                  ((bezier_curve_points t1 c t2 n_steps).take (cut + 1))
                rw [← hcurve] at hnn
                linarith
              · have hfit := le_of_not_lt hng
                linarith
              · right
                refine ⟨q, t2 :: tail, rfl, ?_⟩
                rw [List.append_assoc,
                  List.dropLast_append_getLast? q (by rw [hql]; rfl)]
                have hshape : (bezier_curve_points t1 c t2 n_steps).take (cut + 1) =
                    t1 :: ((List.range' 1 n_steps).map
                      (fun (i : ℕ) => bezier_point t1 c t2 ((i : R) * (1 / (n_steps : R))))).take
                        cut := rfl
                rw [hshape, totalLength_append_cons G points t1 _, ← hshape, ← hcurve]
                linarith
            case h_2 hql =>
              simp at hrun
        case h_2 htl =>
          simp at hrun
      case h_2 hfill =>
        simp at hrun
    case isFalse hlt =>
      rw [Option.some_inj] at hrun
      subst hrun
      rcases hinv with hpe | ⟨p0, r', hpool, hbound⟩
      · subst hpe
        rw [totalLength_nil]
        linarith
      · calc totalLength G points
            ≤ totalLength G (points ++ [p0]) := totalLength_le_concat G h0 _ _
          _ ≤ length := hbound
          _ ≤ max_length := hle

theorem linear_loop_bound (G : Geom R) (S : Scribble R) (max_length : R) :
    ∀ (fuel : ℕ) (points : List (R × R)) (length angle radius : R) (ps : List (R × R)),
      totalLength G points = length → length ≤ max_length →
      linear_loop G S max_length fuel points length angle radius = some ps →
      totalLength G ps ≤ max_length := by
  intro fuel
  induction fuel with
  | zero =>
    intro points length angle radius ps _ _ h
    exact absurd h (by rw [linear_loop]; simp)
  | succ fuel ih =>
    intro points length angle radius ps heq hle hrun
    rw [linear_loop] at hrun
    split at hrun
    · split at hrun
      next last hg =>
        split at hrun
        · rw [Option.some_inj] at hrun
          rw [← hrun, heq]
          exact hle
        next hnle =>
          refine ih _ _ _ _ _ ?_ ?_ hrun
          · rw [totalLength_concat G points last _ hg, heq]
          · exact le_of_not_lt hnle
      next hg =>
        rw [List.getLast?_eq_none_iff] at hg
        subst hg
        refine ih _ _ _ _ _ ?_ ?_ hrun
        · rw [← heq]
          rfl
        · exact hle
    · rw [Option.some_inj] at hrun
      rw [← hrun, heq]
      exact hle

/-- C1: for every generator variant, every positive `initial_radius` and
`max_length`, and any step functions, a point sequence returned by
`get_points` has total length at most `max_length`. -/
theorem claim_C1 (G : Geom R) (S : Scribble R)
    (h0 : ∀ x : R, 0 ≤ G.sqrt x) (hs0 : G.sqrt 0 = 0)
    (fuel steps : ℕ) (initial_radius max_length : R)
    (hr : 0 < initial_radius) (hL : 0 < max_length) :
    (∀ ps, LinearScribble.get_points G S fuel initial_radius max_length = .ok (some ps) →
      totalLength G ps ≤ max_length) ∧
    (∀ ps, BunchedScribble.get_points G S fuel initial_radius max_length steps = .ok (some ps) →
      totalLength G ps ≤ max_length) ∧
    (∀ ps, CurvyScribble.get_points G S fuel initial_radius max_length steps = .ok (some ps) →
      totalLength G ps ≤ max_length) := by
  have hrn : ¬ initial_radius ≤ 0 := not_le.mpr hr
  have hLn : ¬ max_length ≤ 0 := not_le.mpr hL
  refine ⟨fun ps h => ?_, fun ps h => ?_, fun ps h => ?_⟩
  · rw [LinearScribble.get_points, if_neg hrn, if_neg hLn] at h
    exact linear_loop_bound G S max_length fuel [] 0 0 initial_radius ps rfl (le_of_lt hL)
      (Except.ok.inj h)
  · rw [BunchedScribble.get_points, if_neg hrn, if_neg hLn] at h
    exact bunched_loop_bound G S h0 hs0 max_length (_min_steps steps)
      (le_trans (by norm_num) (le_max_right steps 10)) fuel [] 0 [] 0 initial_radius ps
      le_rfl (le_of_lt hL) (Or.inl rfl) (Except.ok.inj h)
  · rw [CurvyScribble.get_points, if_neg hrn, if_neg hLn] at h
    exact curvy_loop_bound G S h0 max_length (_min_steps steps)
      ((_min_steps steps + 1) * 5 / 6 - 1) fuel [] 0 [] 0 initial_radius ps
      le_rfl (le_of_lt hL) (Or.inl rfl) (Except.ok.inj h)

/-- Witness for C1: a concrete terminating linear run over the rational
geometry (19 points of the diamond walk, budget 42) has total length within
budget. -/
theorem claim_C1_witness : totalLength ratGeom circle19 ≤ 42 :=
  (claim_C1 ratGeom (circleWalk ℚ) (fun q => ratSqrt_nonneg q) (by with_unfolding_all rfl)
      25 10 10 42 (by norm_num) (by norm_num)).1 circle19 (by with_unfolding_all rfl)

/-- C2: each of the three `get_points` operations fails, with the single error
kind `invalidArgument` (the source's `ValueError`), exactly when
`initial_radius ≤ 0` or `max_length ≤ 0`; on that path the result is fully
determined by the two scalar arguments — independent of the step functions,
the geometry and the fuel — because the guards run before any point is
generated, so no partial output is ever returned. -/
theorem claim_C2 (G : Geom R) (S : Scribble R) (fuel steps : ℕ)
    (initial_radius max_length : R) :
    ((∃ e, LinearScribble.get_points G S fuel initial_radius max_length = .error e) ↔
      initial_radius ≤ 0 ∨ max_length ≤ 0) ∧
    ((∃ e, BunchedScribble.get_points G S fuel initial_radius max_length steps = .error e) ↔
      initial_radius ≤ 0 ∨ max_length ≤ 0) ∧
    ((∃ e, CurvyScribble.get_points G S fuel initial_radius max_length steps = .error e) ↔
      initial_radius ≤ 0 ∨ max_length ≤ 0) ∧
    (initial_radius ≤ 0 ∨ max_length ≤ 0 →
      LinearScribble.get_points G S fuel initial_radius max_length =
        .error (.invalidArgument (if initial_radius ≤ 0 then "initial_radius must be > 0"
          else "max_length must be > 0")) ∧
      BunchedScribble.get_points G S fuel initial_radius max_length steps =
        .error (.invalidArgument (if initial_radius ≤ 0 then "initial_radius must be > 0"
          else "max_length must be > 0")) ∧
      CurvyScribble.get_points G S fuel initial_radius max_length steps =
        .error (.invalidArgument (if initial_radius ≤ 0 then "initial_radius must be > 0"
          else "max_length must be > 0"))) := by
  by_cases h1 : initial_radius ≤ 0
  · simp [LinearScribble.get_points, BunchedScribble.get_points, CurvyScribble.get_points, h1]
  · by_cases h2 : max_length ≤ 0
    · simp [LinearScribble.get_points, BunchedScribble.get_points, CurvyScribble.get_points,
        h1, h2]
    · simp [LinearScribble.get_points, BunchedScribble.get_points, CurvyScribble.get_points,
        h1, h2]

/-- Witness for C2: at `initial_radius = 0` the linear generator fails with
the invalid-argument error, before any point is generated. -/
theorem claim_C2_witness :
    LinearScribble.get_points ratGeom (circleWalk ℚ) 1 0 1000 =
      .error (.invalidArgument "initial_radius must be > 0") := by
  have h := (claim_C2 ratGeom (circleWalk ℚ) 1 10 0 1000).2.2.2 (Or.inl le_rfl)
  rw [if_pos le_rfl] at h
  exact h.1

/-- Every list returned by the linear loop under the `circleWalk` step
functions is an initial run of `circlePt`. -/
theorem circle_loop_points (G : Geom R) (max_length : R) :
    ∀ (fuel : ℕ) (m : ℕ) (length : R) (ps : List (R × R)),
      linear_loop G (circleWalk R) max_length fuel ((List.range m).map (circlePt G)) length
        (15 * (m : R)) 10 = some ps →
      ∃ n, ps = (List.range n).map (circlePt G) := by
  intro fuel
  induction fuel with
  | zero =>
    intro m length ps h
    exact absurd h (by rw [linear_loop]; simp)
  | succ fuel ih =>
    intro m length ps hrun
    have hstep : (_get_new_point G (circleWalk R) (15 * (m : R)) 10).1 = circlePt G m := by
      show (10 * G.cos ((15 * (m : R)) * (G.pi / 180)) + 0,
            10 * G.sin ((15 * (m : R)) * (G.pi / 180)) + 0) = circlePt G m
      rw [circlePt, add_zero, add_zero]
    have hangle : (_get_new_point G (circleWalk R) (15 * (m : R)) 10).2.1 =
        15 * (((m + 1 : ℕ)) : R) := by
      show 15 * (m : R) + 15 = _
      push_cast
      ring
    have hrad : (_get_new_point G (circleWalk R) (15 * (m : R)) 10).2.2 = (10 : R) := rfl
    have hext : (List.range m).map (circlePt G) ++
        [(_get_new_point G (circleWalk R) (15 * (m : R)) 10).1] =
        (List.range (m + 1)).map (circlePt G) := by
      rw [hstep, List.range_succ, List.map_append]
      rfl
    rw [linear_loop] at hrun
    split at hrun
    · split at hrun
      next last hg =>
        split at hrun
        · exact ⟨m, (Option.some_inj.mp hrun).symm⟩
        next hnle =>
          rw [hext, hangle, hrad] at hrun
          exact ih (m + 1) _ ps hrun
      next hg =>
        rw [hext, hangle, hrad] at hrun
        exact ih (m + 1) _ ps hrun
    · exact ⟨m, (Option.some_inj.mp hrun).symm⟩

/-- C9: with origin `(0,0)`, constant radius step, `+15` degree angle step,
`initial_radius = 10` and any budget whose run yields at least 19 points, the
linear output hits `(10,0)`, `(0,10)`, `(-10,0)`, `(0,-10)` at indices
0, 6, 12, 18, each coordinate to within `1e-6` (exactly, in exact arithmetic),
following the point formula with initial angle 0. -/
theorem claim_C9 (G : Geom R)
    (hc0 : G.cos 0 = 1) (hs0 : G.sin 0 = 0)
    (hc90 : G.cos (G.pi / 2) = 0) (hs90 : G.sin (G.pi / 2) = 1)
    (hc180 : G.cos G.pi = -1) (hs180 : G.sin G.pi = 0)
    (hc270 : G.cos (3 * G.pi / 2) = 0) (hs270 : G.sin (3 * G.pi / 2) = -1)
    (fuel : ℕ) (max_length : R) (ps : List (R × R))
    (hrun : LinearScribble.get_points G (circleWalk R) fuel 10 max_length = .ok (some ps))
    (hlen : 19 ≤ ps.length) :
    |(ps.get ⟨0, by omega⟩).1 - 10| ≤ 1 / 1000000 ∧
    |(ps.get ⟨0, by omega⟩).2 - 0| ≤ 1 / 1000000 ∧
    |(ps.get ⟨6, by omega⟩).1 - 0| ≤ 1 / 1000000 ∧
    |(ps.get ⟨6, by omega⟩).2 - 10| ≤ 1 / 1000000 ∧
    |(ps.get ⟨12, by omega⟩).1 - (-10)| ≤ 1 / 1000000 ∧
    |(ps.get ⟨12, by omega⟩).2 - 0| ≤ 1 / 1000000 ∧
    |(ps.get ⟨18, by omega⟩).1 - 0| ≤ 1 / 1000000 ∧
    |(ps.get ⟨18, by omega⟩).2 - (-10)| ≤ 1 / 1000000 := by
  rw [LinearScribble.get_points, if_neg (by norm_num : ¬ (10 : R) ≤ 0)] at hrun
  split at hrun
  · exact absurd hrun (by simp)
  · have hloop := Except.ok.inj hrun
    have hz : (0 : R) = 15 * (((0 : ℕ)) : R) := by norm_num
    rw [hz] at hloop
    obtain ⟨n, hps⟩ := circle_loop_points G max_length fuel 0 _ ps hloop
    have e0 : circlePt G 0 = ((10 : R), 0) := by
      rw [circlePt]
      have ha : (15 * ((0 : ℕ) : R)) * (G.pi / 180) = 0 := by push_cast; ring
      rw [ha, hc0, hs0]
      norm_num
    have e6 : circlePt G 6 = ((0 : R), 10) := by
      rw [circlePt]
      have ha : (15 * ((6 : ℕ) : R)) * (G.pi / 180) = G.pi / 2 := by push_cast; ring
      rw [ha, hc90, hs90]
      norm_num
    have e12 : circlePt G 12 = ((-10 : R), 0) := by
      rw [circlePt]
      have ha : (15 * ((12 : ℕ) : R)) * (G.pi / 180) = G.pi := by push_cast; ring
      rw [ha, hc180, hs180]
      norm_num
    have e18 : circlePt G 18 = ((0 : R), -10) := by
      rw [circlePt]
      have ha : (15 * ((18 : ℕ) : R)) * (G.pi / 180) = 3 * G.pi / 2 := by push_cast; ring
      rw [ha, hc270, hs270]
      norm_num
    subst hps
    refine ⟨?_, ?_, ?_, ?_, ?_, ?_, ?_, ?_⟩ <;>
      simp only [List.get_eq_getElem, List.getElem_map, List.getElem_range, e0, e6, e12, e18] <;>
      norm_num

/-- Witness for C9: the concrete 19-point rational run (budget 42) hits the
four compass points at indices 0, 6, 12, 18. -/
theorem claim_C9_witness :
    |((circle19.get ⟨0, by decide⟩).1 : ℚ) - 10| ≤ 1 / 1000000 ∧
    |((circle19.get ⟨0, by decide⟩).2 : ℚ) - 0| ≤ 1 / 1000000 ∧
    |((circle19.get ⟨6, by decide⟩).1 : ℚ) - 0| ≤ 1 / 1000000 ∧
    |((circle19.get ⟨6, by decide⟩).2 : ℚ) - 10| ≤ 1 / 1000000 ∧
    |((circle19.get ⟨12, by decide⟩).1 : ℚ) - (-10)| ≤ 1 / 1000000 ∧
    |((circle19.get ⟨12, by decide⟩).2 : ℚ) - 0| ≤ 1 / 1000000 ∧
    |((circle19.get ⟨18, by decide⟩).1 : ℚ) - 0| ≤ 1 / 1000000 ∧
    |((circle19.get ⟨18, by decide⟩).2 : ℚ) - (-10)| ≤ 1 / 1000000 :=
  claim_C9 ratGeom (by with_unfolding_all rfl) (by with_unfolding_all rfl)
    (by with_unfolding_all rfl) (by with_unfolding_all rfl) (by with_unfolding_all rfl)
    (by with_unfolding_all rfl) (by with_unfolding_all rfl) (by with_unfolding_all rfl)
    25 42 circle19 (by with_unfolding_all rfl) (by decide)

/-- The collector loop exits exactly like the point loop when the budget is
already reached. -/
theorem bunched_segments_exit (G : Geom R) (S : Scribble R) (max_length : R)
    (n_steps fuel : ℕ) (segsa : List (List (R × R))) (length : R) (pool : List (R × R))
    (angle radius : R) (hlt : ¬ length < max_length) :
    bunched_loop_segments G S max_length n_steps (fuel + 1) segsa length pool angle radius =
      some segsa := by
  rw [bunched_loop_segments, if_neg hlt]

/-- One full-segment iteration of the collector loop. -/
theorem bunched_segments_continue (G : Geom R) (S : Scribble R) (max_length : R)
    (n_steps fuel : ℕ) (segsa : List (List (R × R))) (length : R) (pool : List (R × R))
    (angle radius : R) (t1 c t2 : R × R) (tail : List (R × R)) (angle2 radius2 : R)
    (hlt : length < max_length)
    (hfill : fill_pool G S pool angle radius = (t1 :: c :: t2 :: tail, angle2, radius2))
    (hng : ¬ (max_length - length < totalLength G (bezier_curve_points t1 c t2 n_steps))) :
    bunched_loop_segments G S max_length n_steps (fuel + 1) segsa length pool angle radius =
      bunched_loop_segments G S max_length n_steps fuel
        (segsa ++ [bezier_curve_points t1 c t2 n_steps])
        (length + totalLength G (bezier_curve_points t1 c t2 n_steps))
        (t2 :: tail) angle2 radius2 := by
  rw [bunched_loop_segments, if_pos hlt]
  split
  next t1' c' t2' tail' angle2' radius2' heq =>
    rw [hfill] at heq
    simp only [Prod.mk.injEq, List.cons.injEq] at heq
    obtain ⟨⟨e1, e2, e3, e4⟩, e5, e6⟩ := heq
    subst e1
    subst e2
    subst e3
    subst e4
    subst e5
    subst e6
    split
    next cl htl =>
      rw [show total_length G (bezier_curve_points t1 c t2 n_steps) =
        some (totalLength G (bezier_curve_points t1 c t2 n_steps))
        from total_length_eq_totalLength G t1 _, Option.some_inj] at htl
      subst htl
      rw [if_neg hng]
    next htl =>
      rw [show total_length G (bezier_curve_points t1 c t2 n_steps) =
        some (totalLength G (bezier_curve_points t1 c t2 n_steps))
        from total_length_eq_totalLength G t1 _] at htl
      simp at htl
  next heq =>
    exact (heq t1 c t2 tail angle2 radius2 hfill).elim

/-- The terminal (shortened-segment) iteration of the collector loop. -/
theorem bunched_segments_break (G : Geom R) (S : Scribble R) (max_length : R)
    (n_steps fuel : ℕ) (segsa : List (List (R × R))) (length : R) (pool : List (R × R))
    (angle radius : R) (t1 c t2 : R × R) (tail : List (R × R)) (angle2 radius2 : R)
    (hlt : length < max_length)
    (hfill : fill_pool G S pool angle radius = (t1 :: c :: t2 :: tail, angle2, radius2))
    (hgt : max_length - length < totalLength G (bezier_curve_points t1 c t2 n_steps)) :
    bunched_loop_segments G S max_length n_steps (fuel + 1) segsa length pool angle radius =
      some (segsa ++
        match (_shorten_curve G (bezier_curve_points t1 c t2 n_steps)
          (totalLength G (bezier_curve_points t1 c t2 n_steps)) (max_length - length)).1 with
        | [] => []
        | s1 :: srest => [s1 :: srest]) := by
  rw [bunched_loop_segments, if_pos hlt]
  split
  next t1' c' t2' tail' angle2' radius2' heq =>
    rw [hfill] at heq
    simp only [Prod.mk.injEq, List.cons.injEq] at heq
    obtain ⟨⟨e1, e2, e3, e4⟩, e5, e6⟩ := heq
    subst e1
    subst e2
    subst e3
    subst e4
    subst e5
    subst e6
    split
    next cl htl =>
      rw [show total_length G (bezier_curve_points t1 c t2 n_steps) =
        some (totalLength G (bezier_curve_points t1 c t2 n_steps))
        from total_length_eq_totalLength G t1 _, Option.some_inj] at htl
      subst htl
      rw [if_pos hgt]
    next htl =>
      rw [show total_length G (bezier_curve_points t1 c t2 n_steps) =
        some (totalLength G (bezier_curve_points t1 c t2 n_steps))
        from total_length_eq_totalLength G t1 _] at htl
      simp at htl
  next heq =>
    exact (heq t1 c t2 tail angle2 radius2 hfill).elim

/-- Correspondence between the point loop and the segment collector: whenever
`bunched_loop` returns a point list, the collector returns, with the same
parameters, a segment list whose concatenation is exactly that point list;
the new segments are chained (each ends with the exact point the next one
starts with), nonempty, and the first of them starts at the pool's head. -/
theorem bunched_collector_spec (G : Geom R) (S : Scribble R) (max_length : R)
    (n_steps : ℕ) (hn : 1 ≤ n_steps) :
    ∀ (fuel : ℕ) (segsa : List (List (R × R))) (length : R) (pool : List (R × R))
      (angle radius : R) (ps : List (R × R)),
      bunched_loop G S max_length n_steps fuel segsa.flatten length pool angle radius =
        some ps →
      ∃ segs,
        bunched_loop_segments G S max_length n_steps fuel segsa length pool angle radius =
          some segs ∧
        ps = segs.flatten ∧
        ∃ new, segs = segsa ++ new ∧
          new.Chain' (fun A B => ∃ x l1 l2, A = l1 ++ [x] ∧ B = x :: l2) ∧
          (∀ p0 r', pool = p0 :: r' → ∀ s0, new.head? = some s0 → s0.head? = some p0) ∧
          (∀ A ∈ new, A ≠ []) := by
  intro fuel
  induction fuel with
  | zero =>
    intro segsa length pool angle radius ps h
    exact absurd h (by rw [bunched_loop]; simp)
  | succ fuel ih =>
    intro segsa length pool angle radius ps hrun
    rw [bunched_loop] at hrun
    split at hrun
    case isTrue hlt =>
      split at hrun
      case h_1 t1 c t2 tail angle2 radius2 hfill =>
        split at hrun
        case h_1 curve_length htl =>
          have hcurve : curve_length = totalLength G (bezier_curve_points t1 c t2 n_steps) := by
            have he : total_length G (bezier_curve_points t1 c t2 n_steps) =
                some (totalLength G (bezier_curve_points t1 c t2 n_steps)) :=
              total_length_eq_totalLength G t1 _
            rw [he, Option.some_inj] at htl
            exact htl.symm
          have hhd : ∀ p0 r', pool = p0 :: r' → t1 = p0 := by
            intro p0 r' hpool
            subst hpool
            obtain ⟨ext, hf⟩ := fill_pool_head G S p0 r' angle radius
            rw [hfill] at hf
            have hh := congrArg List.head? hf
            simpa using hh
          split at hrun
          case isTrue hgt =>
            rw [Option.some_inj] at hrun
            subst hrun
            subst hcurve
            rcases shorten_curve_spec G (bezier_curve_points t1 c t2 n_steps)
                (totalLength G (bezier_curve_points t1 c t2 n_steps))
                (max_length - length) rfl with hsc | ⟨hne, _, _, hhead⟩
            · refine ⟨segsa ++ [], ?_, ?_, [], rfl, List.chain'_nil, ?_, by simp⟩
              · rw [bunched_segments_break G S max_length n_steps fuel segsa length pool
                  angle radius t1 c t2 tail angle2 radius2 hlt hfill hgt, hsc]
              · rw [hsc, List.append_nil, List.append_nil]
              · intro p0 r' _ s0 hs0
                simp at hs0
            · obtain ⟨s1, srest, hsc1⟩ : ∃ s1 srest,
                  (_shorten_curve G (bezier_curve_points t1 c t2 n_steps)
                    (totalLength G (bezier_curve_points t1 c t2 n_steps))
                    (max_length - length)).1 = s1 :: srest := by
                cases hsc1 : (_shorten_curve G (bezier_curve_points t1 c t2 n_steps)
                    (totalLength G (bezier_curve_points t1 c t2 n_steps))
                    (max_length - length)).1 with
                | nil => exact absurd hsc1 hne
                | cons a t => exact ⟨a, t, rfl⟩
              refine ⟨segsa ++ [s1 :: srest], ?_, ?_, [s1 :: srest], rfl,
                List.chain'_singleton _, ?_, ?_⟩
              · rw [bunched_segments_break G S max_length n_steps fuel segsa length pool
                  angle radius t1 c t2 tail angle2 radius2 hlt hfill hgt, hsc1]
              · rw [hsc1, List.flatten_append, List.flatten_cons, List.flatten_nil,
                  List.append_nil]
              · intro p0 r' hpool s0 hs0
                rw [List.head?_cons, Option.some_inj] at hs0
                subst hs0
                have hfirst : (s1 :: srest).head? =
                    (bezier_curve_points t1 c t2 n_steps).head? := by
                  rw [← hsc1]
                  exact hhead
                rw [hfirst, ← hhd p0 r' hpool]
                rfl
              · intro A hA
                rw [List.mem_singleton] at hA
                subst hA
                simp
          case isFalse hng =>
            subst hcurve
            rw [show segsa.flatten ++ bezier_curve_points t1 c t2 n_steps =
              (segsa ++ [bezier_curve_points t1 c t2 n_steps]).flatten by
                rw [List.flatten_append, List.flatten_cons, List.flatten_nil,
                  List.append_nil]] at hrun
            obtain ⟨segs, hcol, hps, new, hsplit, hchain, hlink, hnonempty⟩ :=
              ih (segsa ++ [bezier_curve_points t1 c t2 n_steps]) _ _ _ _ _ hrun
            refine ⟨segs, ?_, hps, bezier_curve_points t1 c t2 n_steps :: new, ?_, ?_, ?_, ?_⟩
            · rw [bunched_segments_continue G S max_length n_steps fuel segsa length pool
                angle radius t1 c t2 tail angle2 radius2 hlt hfill hng]
              exact hcol
            · rw [hsplit, List.append_assoc]
              rfl
            · rw [List.chain'_cons']
              refine ⟨?_, hchain⟩
              intro s0 hs0
              have hs0h : s0.head? = some t2 := hlink t2 tail rfl s0 hs0
              refine ⟨t2, (bezier_curve_points t1 c t2 n_steps).dropLast, s0.tail, ?_, ?_⟩
              · exact (List.dropLast_append_getLast? t2
                  (by rw [bezier_getLast t1 c t2 n_steps hn]; rfl)).symm
              · cases s0 with
                | nil => simp at hs0h
                | cons a l =>
                  rw [List.head?_cons, Option.some_inj] at hs0h
                  subst hs0h
                  rfl
            · intro p0 r' hpool s0 hs0
              rw [List.head?_cons, Option.some_inj] at hs0
              subst hs0
              rw [← hhd p0 r' hpool]
              rfl
            · intro A hA
              rw [List.mem_cons] at hA
              rcases hA with hA | hA
              · subst hA
                simp [bezier_curve_points]
              · exact hnonempty A hA
        case h_2 htl =>
          simp at hrun
      case h_2 hfill =>
        simp at hrun
    case isFalse hlt =>
      rw [Option.some_inj] at hrun
      subst hrun
      refine ⟨segsa, bunched_segments_exit G S max_length n_steps fuel segsa length pool
        angle radius hlt, rfl, [], by rw [List.append_nil], List.chain'_nil, ?_, by simp⟩
      intro p0 r' _ s0 hs0
      simp at hs0

/-- In the concatenation of a chained segment list, each consecutive pair of
segments shares its boundary point, so the flat list carries an adjacent
duplicate at the exact position where segment `i + 1` starts. -/
theorem flatten_boundary_dup {α : Type} (segs : List (List α))
    (hchain : segs.Chain' (fun A B => ∃ x l1 l2, A = l1 ++ [x] ∧ B = x :: l2)) :
    ∀ (i : ℕ), i + 1 < segs.length →
      ∃ x l2, segs.flatten = ((segs.take (i + 1)).flatten).dropLast ++ x :: x :: l2 := by
  intro i hi
  have hi1 : i < segs.length := by omega
  have hi2 : i + 1 < segs.length := hi
  have hrel := (List.chain'_iff_get.mp hchain) i (by omega)
  obtain ⟨x, l1, l2, hA, hB⟩ := hrel
  have hA' : segs[i] = l1 ++ [x] := by rw [← hA]; rfl
  have hB' : segs[i + 1] = x :: l2 := by rw [← hB]; rfl
  refine ⟨x, l2 ++ (segs.drop (i + 2)).flatten, ?_⟩
  have hsplit : segs.flatten = (segs.take (i + 1)).flatten ++ (segs.drop (i + 1)).flatten := by
    rw [← List.flatten_append, List.take_append_drop]
  have htake : (segs.take (i + 1)).flatten = (segs.take i).flatten ++ (l1 ++ [x]) := by
    rw [List.take_succ, List.flatten_append, List.getElem?_eq_getElem hi1]
    simp [hA']
  have hdrop : (segs.drop (i + 1)).flatten = (x :: l2) ++ (segs.drop (i + 2)).flatten := by
    rw [List.drop_eq_getElem_cons hi2, List.flatten_cons, hB']
  have hlast : ((segs.take (i + 1)).flatten).dropLast = (segs.take i).flatten ++ l1 := by
    rw [htake, ← List.append_assoc, List.dropLast_concat]
  rw [hsplit, hlast, htake, hdrop]
  simp

/-- C10: whenever `BunchedScribble.get_points` returns a point list, the curve
segments it emitted (computed by `bunched_loop_segments`, the same loop with
segments kept separate) concatenate to exactly that list; they are nonempty,
every non-final segment ends with exactly the point the next segment starts
with, and consequently the returned sequence contains an adjacent duplicate
point pair at every segment boundary — each contributing zero length, since
`distance p p = 0`. -/
theorem claim_C10 (G : Geom R) (S : Scribble R) (hs0 : G.sqrt 0 = 0)
    (fuel steps : ℕ) (initial_radius max_length : R) (ps : List (R × R))
    (hrun : BunchedScribble.get_points G S fuel initial_radius max_length steps =
      .ok (some ps)) :
    ∃ segs : List (List (R × R)),
      bunched_loop_segments G S max_length (_min_steps steps) fuel [] 0 [] 0 initial_radius =
        some segs ∧
      ps = segs.flatten ∧
      segs.Chain' (fun A B => ∃ x l1 l2, A = l1 ++ [x] ∧ B = x :: l2) ∧
      (∀ A ∈ segs, A ≠ []) ∧
      (∀ i : ℕ, i + 1 < segs.length →
        ∃ x l2, ps = ((segs.take (i + 1)).flatten).dropLast ++ x :: x :: l2) ∧
      (∀ p : R × R, distance G p p = 0) := by
  rw [BunchedScribble.get_points] at hrun
  split at hrun
  · exact absurd hrun (by simp)
  · split at hrun
    · exact absurd hrun (by simp)
    · have hloop := Except.ok.inj hrun
      obtain ⟨segs, hcol, hps, new, hsplit, hchain, _, hnonempty⟩ :=
        bunched_collector_spec G S max_length (_min_steps steps)
          (le_trans (by norm_num) (le_max_right steps 10)) fuel [] 0 [] 0 initial_radius ps
          hloop
      rw [List.nil_append] at hsplit
      subst hsplit
      refine ⟨segs, hcol, hps, hchain, hnonempty, ?_, fun p => distance_self G hs0 p⟩
      intro i hi
      obtain ⟨x, l2, hdup⟩ := flatten_boundary_dup segs hchain i hi
      exact ⟨x, l2, by rw [hps, hdup]⟩

/-- Witness for C10: the concrete 17-point bunched run over the rational
geometry decomposes into its emitted segments with an adjacent duplicate at
the boundary. -/
theorem claim_C10_witness :
    ∃ segs : List (List (ℚ × ℚ)),
      bunched_loop_segments ratGeom (circleWalk ℚ) 3 (_min_steps 10) 10 [] 0 [] 0 6 =
        some segs ∧
      bunched17 = segs.flatten ∧
      segs.Chain' (fun A B => ∃ x l1 l2, A = l1 ++ [x] ∧ B = x :: l2) ∧
      (∀ A ∈ segs, A ≠ []) ∧
      (∀ i : ℕ, i + 1 < segs.length →
        ∃ x l2, bunched17 = ((segs.take (i + 1)).flatten).dropLast ++ x :: x :: l2) ∧
      (∀ p : ℚ × ℚ, distance ratGeom p p = 0) :=
  claim_C10 ratGeom (circleWalk ℚ) (by with_unfolding_all rfl) 10 10 6 3 bunched17
    (by with_unfolding_all rfl)

/-- C6: one non-final iteration of the joint-smoothing loop, at the clamped
step count `ns = max(steps, 10)` and cut index `cut = (ns + 1) * 5 / 6 - 1`
(exact floor arithmetic).  The generated segment is cut to the prefix of
indices `0 .. cut` inclusive; the whole prefix is used for length accounting
(`totalLength` of the prefix is added to the tracked length); the point at
index `cut` is not emitted (only `dropLast` of the prefix is appended to the
output) but is reinserted at the front of the pending pool.  The second
conjunct shows the refilled pool still starts with that point followed by the
previous `terminus₂`, which the next iteration pops as its `terminus₁` and
`control`. -/
theorem claim_C6 (G : Geom R) (S : Scribble R) (steps fuel : ℕ)
    (points pool : List (R × R)) (length angle radius max_length : R)
    (t1 c t2 q : R × R) (tail : List (R × R)) (angle2 radius2 : R)
    (hlt : length < max_length)
    (hfill : fill_pool G S pool angle radius = (t1 :: c :: t2 :: tail, angle2, radius2))
    (hfit : ¬ (max_length - length < totalLength G
      ((bezier_curve_points t1 c t2 (_min_steps steps)).take
        ((_min_steps steps + 1) * 5 / 6 - 1 + 1))))
    (hlast : ((bezier_curve_points t1 c t2 (_min_steps steps)).take
      ((_min_steps steps + 1) * 5 / 6 - 1 + 1)).getLast? = some q) :
    curvy_loop G S max_length (_min_steps steps) ((_min_steps steps + 1) * 5 / 6 - 1)
        (fuel + 1) points length pool angle radius =
      curvy_loop G S max_length (_min_steps steps) ((_min_steps steps + 1) * 5 / 6 - 1)
        fuel
        (points ++ ((bezier_curve_points t1 c t2 (_min_steps steps)).take
          ((_min_steps steps + 1) * 5 / 6 - 1 + 1)).dropLast)
        (length + totalLength G ((bezier_curve_points t1 c t2 (_min_steps steps)).take
          ((_min_steps steps + 1) * 5 / 6 - 1 + 1)))
        (q :: t2 :: tail) angle2 radius2 ∧
    (fill_pool G S (q :: t2 :: tail) angle2 radius2).1.take 2 = [q, t2] := by
  constructor
  · rw [curvy_loop, if_pos hlt]
    split
    next t1' c' t2' tail' angle2' radius2' heq =>
      rw [hfill] at heq
      simp only [Prod.mk.injEq, List.cons.injEq] at heq
      obtain ⟨⟨e1, e2, e3, e4⟩, e5, e6⟩ := heq
      subst e1
      subst e2
      subst e3
      subst e4
      subst e5
      subst e6
      split
      next cl htl =>
        rw [show total_length G ((bezier_curve_points t1 c t2 (_min_steps steps)).take
            ((_min_steps steps + 1) * 5 / 6 - 1 + 1)) =
          some (totalLength G ((bezier_curve_points t1 c t2 (_min_steps steps)).take
            ((_min_steps steps + 1) * 5 / 6 - 1 + 1)))
          from total_length_eq_totalLength G t1 _, Option.some_inj] at htl
        subst htl
        rw [if_neg hfit]
        split
        next nt1 hql =>
          rw [hlast, Option.some_inj] at hql
          subst hql
          rfl
        next hql =>
          rw [hlast] at hql
          simp at hql
      next htl =>
        rw [show total_length G ((bezier_curve_points t1 c t2 (_min_steps steps)).take
            ((_min_steps steps + 1) * 5 / 6 - 1 + 1)) =
          some (totalLength G ((bezier_curve_points t1 c t2 (_min_steps steps)).take
            ((_min_steps steps + 1) * 5 / 6 - 1 + 1)))
          from total_length_eq_totalLength G t1 _] at htl
        simp at htl
    next heq =>
      exact (heq t1 c t2 tail angle2 radius2 hfill).elim
  · obtain ⟨ext, hf⟩ := fill_pool_head G S q (t2 :: tail) angle2 radius2
    rw [hf]
    rfl

/-- Witness for C6: the concrete first iteration of the curvy loop over the
rational geometry (radius-6 walk, `steps = 10`, so cut index 8): the 9-point
prefix is accounted, its last point `(22/5, 8/5)` is withheld from the output
and pushed back in front of the previous `terminus₂ = (4, 2)`. -/
theorem claim_C6_witness :
    curvy_loop ratGeom (circleWalk ℚ) 100 (_min_steps 10) ((_min_steps 10 + 1) * 5 / 6 - 1)
        (0 + 1) [] 0 [] 0 6 =
      curvy_loop ratGeom (circleWalk ℚ) 100 (_min_steps 10) ((_min_steps 10 + 1) * 5 / 6 - 1)
        0
        ([] ++ ((bezier_curve_points ((6:ℚ), 0) (5, 1) (4, 2) (_min_steps 10)).take
          ((_min_steps 10 + 1) * 5 / 6 - 1 + 1)).dropLast)
        (0 + totalLength ratGeom ((bezier_curve_points ((6:ℚ), 0) (5, 1) (4, 2)
          (_min_steps 10)).take ((_min_steps 10 + 1) * 5 / 6 - 1 + 1)))
        ((22/5, 8/5) :: (4, 2) :: []) 45 6 ∧
    (fill_pool ratGeom (circleWalk ℚ) ((22/5, 8/5) :: (4, 2) :: []) 45 6).1.take 2 =
      [((22:ℚ)/5, (8:ℚ)/5), (4, 2)] :=
  claim_C6 ratGeom (circleWalk ℚ) 10 0 [] [] 0 0 6 100 (6, 0) (5, 1) (4, 2) (22/5, 8/5) []
    45 6 (by norm_num) (by with_unfolding_all rfl)
    (by
      rw [show totalLength ratGeom ((bezier_curve_points ((6:ℚ), 0) (5, 1) (4, 2)
          (_min_steps 10)).take ((_min_steps 10 + 1) * 5 / 6 - 1 + 1)) = 8/5
        from by with_unfolding_all rfl]
      norm_num)
    (by with_unfolding_all rfl)

end Scribbles
